import Mathlib

/-!
Verification of the omarchy-firefox-theme native host (src/native/main.c).

The C program is embedded shallowly: byte buffers become lists of natural
numbers (each element a byte value), fallible calls become Option results,
and the OS surface (fopen, fgets, inotify reads) becomes explicit input
data threaded through the model. Definitions follow the C source; the few
definitions written from the specification text rather than the source are
marked as such in their doc comments.
-/

namespace OmarchyHost

/-- ascii converts a Lean string literal to its list of byte values; it is
used only to write ASCII literals from the C source readably. -/
def ascii (s : String) : List Nat :=
  s.data.map Char.toNat

/-- cstr models reading a C string out of a buffer: the bytes before the
first NUL byte. -/
def cstr (buf : List Nat) : List Nat :=
  buf.takeWhile (fun c => c != 0)

/-- hex_digit is the lookup into the C table hex[] = "0123456789abcdef". -/
def hex_digit (d : Nat) : Nat :=
  if d < 10 then 48 + d else 87 + d

/-- escape_char is the body of the switch statement in json_escape
(src/native/main.c lines 63-103): the bytes emitted for one input byte. -/
def escape_char (c : Nat) : List Nat :=
  if c = 34 then [92, 34]
  else if c = 92 then [92, 92]
  else if c = 8 then [92, 98]
  else if c = 12 then [92, 102]
  else if c = 10 then [92, 110]
  else if c = 13 then [92, 114]
  else if c = 9 then [92, 116]
  else if c < 32 then [92, 117, 48, 48, hex_digit (c / 16), hex_digit (c % 16)]
  else [c]

/-- json_escape_loop models the while loop of json_escape: di is the number
of bytes already written into the destination, dst_size its capacity. The
result is the list of bytes written after position di (none = the C function
returns -1). The final check di >= dst_size after the loop is the C code at
lines 106-107. -/
def json_escape_loop (src : List Nat) (di dst_size : Nat) : Option (List Nat) :=
  match src with
  | [] => if di ≥ dst_size then none else some []
  | c :: rest =>
    if di + 6 ≥ dst_size then none
    else
      let e := escape_char c
      (json_escape_loop rest (di + e.length) dst_size).map (fun out => e ++ out)

/-- json_escape embeds the C function json_escape: escape src into a
destination of capacity dst_size (capacity includes the terminating NUL).
Returns the written bytes (excluding the NUL) or none where C returns -1. -/
def json_escape (src : List Nat) (dst_size : Nat) : Option (List Nat) :=
  if dst_size = 0 then none
  else json_escape_loop src 0 dst_size

/-- is_digit_comma is the character test of the filtering loop in
get_chromium_theme: an ASCII digit or a comma. -/
def is_digit_comma (c : Nat) : Bool :=
  (48 ≤ c && c ≤ 57) || c == 44

/-- theme_filter_loop models the for loop of get_chromium_theme (lines
271-283): scan the line buffer, stop at the first NUL, copy digit/comma
bytes, and break once j reaches CHROMIUM_THEME_MAX - 1 = 11 output bytes. -/
def theme_filter_loop (line : List Nat) (j : Nat) : List Nat :=
  match line with
  | [] => []
  | c :: rest =>
    if c = 0 then []
    else if is_digit_comma c then
      if j ≥ 11 then [] else c :: theme_filter_loop rest (j + 1)
    else theme_filter_loop rest j

/-- theme_filter is the digit/comma extraction applied by get_chromium_theme
to the line read by fgets. The input list is the buffer contents written by
fgets before its terminating NUL; a zero element models a NUL byte embedded
in the file data. -/
def theme_filter (line : List Nat) : List Nat :=
  theme_filter_loop line 0

/-- FgetsRes models the outcome of the fgets call in get_chromium_theme.
A line result carries the bytes stored in the buffer before the appended
terminating NUL (at most 255 of them). An eofAt result models fgets
returning NULL at end of file with no stream error, in which case the C
standard leaves errno untouched; the carried value is whatever errno holds
at that moment, which may be zero. An err result models fgets returning
NULL after a read error, with the nonzero errno the OS set. -/
inductive FgetsRes where
  | line (bytes : List Nat)
  | eofAt (errnoNow : Nat)
  | err (errno : Nat)
deriving DecidableEq, Repr

/-- FopenRes models the outcome of the fopen call in get_chromium_theme:
failure with the errno the OS set, or success together with the outcome of
the subsequent fgets. -/
inductive FopenRes where
  | fail (errno : Nat)
  | ok (read : FgetsRes)
deriving DecidableEq, Repr

/-- write_cstr models writing the NUL-terminated string content into the
front of buffer dst, leaving the bytes past the terminator untouched. -/
def write_cstr (dst content : List Nat) : List Nat :=
  content ++ [0] ++ dst.drop (content.length + 1)

/-- get_chromium_theme embeds the C function of the same name: the pair it
returns is (return value, destination buffer after the call). On fopen
failure or fgets failure it returns errno and never touches the buffer; on
a successful line read it returns 0 and stores the filtered digit/comma
string. The eofAt case is the C code returning errno after fgets hit end
of file, where errno was not set by fgets. -/
def get_chromium_theme (file : FopenRes) (dst : List Nat) : Nat × List Nat :=
  match file with
  | .fail e => (e, dst)
  | .ok (.err e) => (e, dst)
  | .ok (.eofAt e) => (e, dst)
  | .ok (.line bs) => (0, write_cstr dst (theme_filter bs))

/-- MSG_MAX is the fixed message-buffer capacity from the C source. -/
def MSG_MAX : Nat := 512

/-- esc_field models the escape-then-fallback step of send_msg (lines
145-160): json_escape into a buffer of MSG_MAX bytes, replaced by the
literal fallback text when json_escape reports the input as too long. -/
def esc_field : Option (List Nat) → List Nat
  | some out => out
  | none => ascii "error too long"

/-- esc_field_of applies esc_field to the json_escape of s, exactly as
send_msg computes esc_err and esc_syserr. -/
def esc_field_of (s : List Nat) : List Nat :=
  esc_field (json_escape s MSG_MAX)

/-- send_msg_body models the message-formatting half of send_msg: given
the rgb argument (the C string passed as rgb, or none for NULL), the err
argument, and the strerror text for the accompanying errno, it produces
the JSON body that snprintf builds, or none when snprintf_werr reports
ERANGE (body would need MSG_MAX bytes or more) and send_msg emits
nothing. -/
def send_msg_body (rgb : Option (List Nat)) (err : Option (List Nat))
    (syserr : List Nat) : Option (List Nat) :=
  let body : List Nat :=
    match rgb, err with
    | some r, some e =>
      ascii "\x7b\"rgb\":[" ++ r ++ ascii "],\"error\":\"" ++ esc_field_of e ++
        ascii ": " ++ esc_field_of syserr ++ ascii "\"\x7d"
    | some r, none =>
      ascii "\x7b\"rgb\":[" ++ r ++ ascii "],\"error\":null\x7d"
    | none, some e =>
      ascii "\x7b\"rgb\":null,\"error\":\"" ++ esc_field_of e ++
        ascii ": " ++ esc_field_of syserr ++ ascii "\"\x7d"
    | none, none =>
      ascii "\x7b\"rgb\":null,\"error\":null\x7d"
  if body.length ≥ MSG_MAX then none else some body

/-- le32 is the little-endian 4-byte encoding of a 32-bit value, as
produced by htole32 and fwrite of the uint32_t length in send_msg. -/
def le32 (n : Nat) : List Nat :=
  [n % 256, n / 256 % 256, n / 65536 % 256, n / 16777216 % 256]

/-- decode_le32 reads back a 4-byte little-endian prefix; it is the
reader's half of the framing round trip. -/
def decode_le32 (l : List Nat) : Nat :=
  l.getD 0 0 + 256 * l.getD 1 0 + 65536 * l.getD 2 0 + 16777216 * l.getD 3 0

/-- send_msg_frame models the full emission of send_msg on stdout: the
4-byte little-endian length prefix followed by exactly the body bytes, or
none when the formatting step failed and nothing is written. -/
def send_msg_frame (rgb : Option (List Nat)) (err : Option (List Nat))
    (syserr : List Nat) : Option (List Nat) :=
  (send_msg_body rgb err syserr).map (fun body => le32 body.length ++ body)

/-- is_hex_byte recognises the bytes admitted as hexadecimal digits inside
a JSON backslash-u escape. -/
def is_hex_byte (c : Nat) : Bool :=
  (48 ≤ c && c ≤ 57) || (97 ≤ c && c ≤ 102) || (65 ≤ c && c ≤ 70)

/-- hex_val is the numeric value of a hexadecimal digit byte. -/
def hex_val (c : Nat) : Nat :=
  if 48 ≤ c && c ≤ 57 then c - 48
  else if 97 ≤ c && c ≤ 102 then c - 87
  else if 65 ≤ c && c ≤ 70 then c - 55
  else 0

/-- json_unescape is the spec-side decoder of a JSON string body. Modelled
from the spec: it accepts exactly the valid string bodies (all control
bytes escaped, quote and backslash escaped, every backslash starting a
legal escape) and returns the decoded byte sequence, so a some result
witnesses validity and the decoded value witnesses the round trip. -/
def json_unescape : List Nat → Option (List Nat)
  | [] => some []
  | c :: rest =>
    if c = 92 then
      match rest with
      | [] => none
      | e :: r =>
        if e = 34 then (json_unescape r).map (fun d => 34 :: d)
        else if e = 92 then (json_unescape r).map (fun d => 92 :: d)
        else if e = 98 then (json_unescape r).map (fun d => 8 :: d)
        else if e = 102 then (json_unescape r).map (fun d => 12 :: d)
        else if e = 110 then (json_unescape r).map (fun d => 10 :: d)
        else if e = 114 then (json_unescape r).map (fun d => 13 :: d)
        else if e = 116 then (json_unescape r).map (fun d => 9 :: d)
        else if e = 117 then
          match r with
          | h1 :: h2 :: h3 :: h4 :: r2 =>
            if is_hex_byte h1 && is_hex_byte h2 && is_hex_byte h3 &&
                is_hex_byte h4 then
              (json_unescape r2).map
                (fun d => (((hex_val h1 * 16 + hex_val h2) * 16 + hex_val h3) *
                  16 + hex_val h4) :: d)
            else none
          | _ => none
        else none
    else if c = 34 then none
    else if c < 32 then none
    else (json_unescape rest).map (fun d => c :: d)

/-- strip_lit consumes an expected literal from the front of the input,
returning the remainder, or none if the literal is not there. -/
def strip_lit (lit l : List Nat) : Option (List Nat) :=
  if lit.isPrefixOf l then some (l.drop lit.length) else none

/-- split_comma splits a byte list on comma bytes, keeping empty groups,
so that the groups are the candidate JSON numbers of an array slice. -/
def split_comma : List Nat → List (List Nat)
  | [] => [[]]
  | c :: rest =>
    if c = 44 then [] :: split_comma rest
    else
      match split_comma rest with
      | g :: gs => (c :: g) :: gs
      | [] => [[c]]

/-- good_num recognises a valid JSON integer numeral as emitted here: a
nonempty run of digits with no leading zero (a lone zero is allowed). -/
def good_num (g : List Nat) : Bool :=
  !g.isEmpty && g.all (fun c => 48 ≤ c && c ≤ 57) &&
    (g.length == 1 || g.headD 0 != 48)

/-- num_list_count interprets the bytes between the brackets of a JSON
array as a comma-separated list of numbers, returning how many, or none
when the slice is not a list of valid numbers. The empty slice is the
empty array. -/
def num_list_count (inner : List Nat) : Option Nat :=
  if inner.isEmpty then some 0
  else
    let gs := split_comma inner
    if gs.all good_num then some gs.length else none

/-- parse_rgb_val parses the value of the rgb field: the literal null, or
a bracketed array of numbers (the array is scanned to the first closing
bracket, which is exact for arrays of numbers since numerals contain no
closing bracket). It returns none for null, or the count of numbers, plus
the remaining input. -/
def parse_rgb_val (l : List Nat) : Option (Option Nat × List Nat) :=
  match strip_lit (ascii "null") l with
  | some rest => some (none, rest)
  | none =>
    match l with
    | 91 :: rest =>
      let inner := rest.takeWhile (fun c => c != 93)
      match rest.drop inner.length with
      | 93 :: rest2 => (num_list_count inner).map (fun k => (some k, rest2))
      | _ => none
    | _ => none

/-- parse_string_body consumes a valid JSON string body up to and including
its closing quote, returning the remaining input, or none when a raw
control byte, a raw quote at an escape position, a bad escape, or the end
of input is hit first. -/
def parse_string_body : List Nat → Option (List Nat)
  | [] => none
  | c :: rest =>
    if c = 34 then some rest
    else if c = 92 then
      match rest with
      | [] => none
      | e :: r =>
        if e = 34 || e = 92 || e = 98 || e = 102 || e = 110 || e = 114 ||
            e = 116 then parse_string_body r
        else if e = 117 then
          match r with
          | h1 :: h2 :: h3 :: h4 :: r2 =>
            if is_hex_byte h1 && is_hex_byte h2 && is_hex_byte h3 &&
                is_hex_byte h4 then
              parse_string_body r2
            else none
          | _ => none
        else none
    else if c < 32 then none
    else parse_string_body rest

/-- parse_err_val parses the value of the error field: the literal null,
or a quoted JSON string. The Bool records whether the value is a string. -/
def parse_err_val (l : List Nat) : Option (Bool × List Nat) :=
  match strip_lit (ascii "null") l with
  | some rest => some (false, rest)
  | none =>
    match l with
    | 34 :: rest => (parse_string_body rest).map (fun rest2 => (true, rest2))
    | _ => none

/-- msg_shape_ok decides the message-shape property of claim C1 over a
message body, modelled from the spec: the body is a JSON object with
exactly the two fields rgb and error in the serialization the host uses
(no whitespace), rgb is an array of numbers or null, error is a string or
null, precisely one of the two is null, and a non-null rgb has exactly
three numbers. -/
def msg_shape_ok (body : List Nat) : Bool :=
  match strip_lit (ascii "\x7b\"rgb\":") body with
  | none => false
  | some l1 =>
    match parse_rgb_val l1 with
    | none => false
    | some (rgbv, l2) =>
      match strip_lit (ascii ",\"error\":") l2 with
      | none => false
      | some l3 =>
        match parse_err_val l3 with
        | none => false
        | some (errv, l4) =>
          l4 == [125] &&
            (match rgbv, errv with
             | some k, false => k == 3
             | none, true => true
             | _, _ => false)

/-- read_u32 models reading a 4-byte little-endian unsigned field out of
the notification buffer at a byte offset; bytes past the buffer read as 0
(they are never relied on: the validation check rejects such records). -/
def read_u32 (buf : List Nat) (off : Nat) : Nat :=
  buf.getD off 0 + 256 * buf.getD (off + 1) 0 + 65536 * buf.getD (off + 2) 0 +
    16777216 * buf.getD (off + 3) 0

/-- ev_len is the declared name length field of the inotify record at the
given offset (field len sits 12 bytes into struct inotify_event). -/
def ev_len (buf : List Nat) (off : Nat) : Nat :=
  read_u32 buf (off + 12)

/-- ev_size is sizeof(struct inotify_event) + ev len, the declared total
record size computed by main; the fixed header is 16 bytes. -/
def ev_size (buf : List Nat) (off : Nat) : Nat :=
  16 + ev_len buf off

/-- RawEvent is a validated notification record as the event loop uses it:
its offset in the buffer, its mask, its declared name length, and its name
bytes. -/
structure RawEvent where
  off : Nat
  mask : Nat
  len : Nat
  name : List Nat
deriving DecidableEq, Repr

/-- process_loop_go is the record-walking for loop of main (lines
344-362) with an explicit fuel argument standing in for the termination
measure, so that the definition stays structurally recursive and
computable by the kernel. Each iteration advances the offset by at least
the 16 header bytes, so any fuel exceeding n - off never runs out; the
lemma process_loop_go_fuel below makes that precise. -/
def process_loop_go (buf : List Nat) (n : Nat) : Nat → Nat → List RawEvent
  | _, 0 => []
  | off, fuel + 1 =>
    if off < n then
      if ev_size buf off = 0 ∨ off + ev_size buf off > n then []
      else
        { off := off, mask := read_u32 buf (off + 4), len := ev_len buf off,
          name := (buf.drop (off + 16)).take (ev_len buf off) } ::
          process_loop_go buf n (off + ev_size buf off) fuel
    else []

/-- process_loop embeds the record-walking for loop of main: starting at
offset off, with n bytes actually read, it returns the list of records
the loop body inspects. A record whose declared size is zero or would
pass byte n stops the walk at once and is not returned. In this model the
declared size is 16 + len and hence never zero; the zero test is kept
from the C source, where it guards size_t overflow. -/
def process_loop (buf : List Nat) (n off : Nat) : List RawEvent :=
  process_loop_go buf n off (n + 1)

/-- IN_MOVED_TO is the inotify mask bit for an entry moved into the
watched directory. -/
def IN_MOVED_TO : Nat := 128

/-- IN_CREATE is the inotify mask bit for an entry created in the watched
directory. -/
def IN_CREATE : Nat := 256

/-- theme_dir is the sentinel entry name the event filter compares
against. -/
def theme_dir : List Nat := ascii "theme"

/-- event_matches is the qualifying test of the loop body (line 351): the
mask has a moved-in or created bit, the declared length is nonzero, and
the C string in the name bytes equals the sentinel name. -/
def event_matches (ev : RawEvent) : Bool :=
  (ev.mask &&& (IN_MOVED_TO ||| IN_CREATE)) != 0 && ev.len != 0 &&
    cstr ev.name == theme_dir

/-- Call records one invocation of send_msg by main: a success message
carrying the rgb C string, or a failure message carrying the context
literal and the errno value passed alongside it. -/
inductive Call where
  | success (rgb : List Nat)
  | failure (ctx : List Nat) (en : Nat)
deriving DecidableEq, Repr

/-- all_success says every call in a trace segment is a success message. -/
def all_success (cs : List Call) : Prop :=
  ∀ c ∈ cs, ∃ rgb, c = Call.success rgb

/-- Context literal passed to send_msg when get_current_path fails. -/
def ctx_current_path : List Nat :=
  ascii "could not get path \x27~/.config/omarchy/current\x27"

/-- Context literal passed to send_msg when inotify_init fails. -/
def ctx_inotify_init : List Nat := ascii "could not init inotify"

/-- Context literal passed to send_msg when inotify_add_watch fails. -/
def ctx_add_watch : List Nat :=
  ascii "could not watch directory \x27~/.config/omarchy/current\x27"

/-- Context literal passed to send_msg when get_chromium_theme_path
fails. -/
def ctx_theme_path : List Nat :=
  ascii "could not get path \x27~/.config/omarchy/current/theme/chromium.theme\x27"

/-- Context literal passed to send_msg when get_chromium_theme fails. -/
def ctx_read_theme : List Nat := ascii "could not read chromium.theme to string"

/-- Context literal passed to send_msg when the blocking read on the
inotify descriptor fails. -/
def ctx_read_inotify : List Nat := ascii "could not read inotify instance"

/-- EINTR is the errno value the steady loop retries on transparently. -/
def EINTR : Nat := 4

/-- LoopIn is one iteration of input to the steady-state loop: the read on
the notification descriptor fails with an errno, or yields a buffer of
which n bytes are valid, together with the fopen outcomes for the theme
re-reads the batch triggers, in order. -/
inductive LoopIn where
  | readFail (errno : Nat)
  | readBatch (buf : List Nat) (n : Nat) (opens : List FopenRes)

/-- run_reads models the qualifying-event bodies of one batch: k matching
records each re-run get_chromium_theme on the persistent theme buffer and
emit, stopping with a fatal error message and exit code on the first
nonzero result. It returns the send_msg calls, the buffer afterwards, and
the exit code if the process terminated. -/
def run_reads (k : Nat) (opens : List FopenRes) (theme : List Nat) :
    List Call × List Nat × Option Nat :=
  match k with
  | 0 => ([], theme, none)
  | k + 1 =>
    let r := get_chromium_theme (opens.headD (.ok (.line []))) theme
    if r.1 ≠ 0 then ([.failure ctx_read_theme r.1], r.2, some r.1)
    else
      let rest := run_reads k opens.tail r.2
      (Call.success (cstr r.2) :: rest.1, rest.2.1, rest.2.2)

/-- run_loop models the steady-state while loop of main over a finite
list of read outcomes: EINTR retries, any other read failure is fatal, and
a batch processes its validated matching records. A none exit code means
the process is still blocked waiting for input when the supplied inputs
run out. -/
def run_loop (ins : List LoopIn) (theme : List Nat) : List Call × Option Nat :=
  match ins with
  | [] => ([], none)
  | .readFail e :: rest =>
    if e = EINTR then run_loop rest theme
    else ([.failure ctx_read_inotify e], some e)
  | .readBatch buf n opens :: rest =>
    let k := ((process_loop buf n 0).filter event_matches).length
    let rr := run_reads k opens theme
    match rr.2.2 with
    | some e => (rr.1, some e)
    | none =>
      let rl := run_loop rest rr.2.1
      (rr.1 ++ rl.1, rl.2)

/-- MainEnv is the OS input to one run of main: the results of the path
and watch setup calls (0 or none meaning success, otherwise the
errno-style value the C helper returned), the fopen outcome of the
initial theme read, and the steady-loop inputs. -/
structure MainEnv where
  current_path_res : Nat
  inotify_init_errno : Option Nat
  add_watch_errno : Option Nat
  theme_path_res : Nat
  initial_open : FopenRes
  loop_inputs : List LoopIn

/-- main_run embeds main (lines 289-363): it returns the ordered list of
send_msg calls main makes and the argument of clean_exit if it exits, or
none when the loop is still running after the supplied inputs. The theme
buffer starts as the 12 zero bytes of the static array. -/
def main_run (env : MainEnv) : List Call × Option Nat :=
  if env.current_path_res ≠ 0 then
    ([.failure ctx_current_path env.current_path_res], some env.current_path_res)
  else
    match env.inotify_init_errno with
    | some e => ([.failure ctx_inotify_init e], some e)
    | none =>
      match env.add_watch_errno with
      | some e => ([.failure ctx_add_watch e], some e)
      | none =>
        if env.theme_path_res ≠ 0 then
          ([.failure ctx_theme_path env.theme_path_res], some env.theme_path_res)
        else
          let r := get_chromium_theme env.initial_open (List.replicate 12 0)
          if r.1 ≠ 0 then ([.failure ctx_read_theme r.1], some r.1)
          else
            let rl := run_loop env.loop_inputs r.2
            (Call.success (cstr r.2) :: rl.1, rl.2)

/-! Supporting lemmas. -/

/-- process_loop_go_fuel shows the fuel in process_loop_go is an
artifact: any two fuels exceeding the remaining byte count walk the same
records, so process_loop agrees with the C loop, whose only bound is the
offset reaching n. -/
theorem process_loop_go_fuel (buf : List Nat) (n : Nat) :
    ∀ f1 f2 off, n - off < f1 → n - off < f2 →
      process_loop_go buf n off f1 = process_loop_go buf n off f2 := by
  intro f1
  induction f1 with
  | zero => intro f2 off h1 _; omega
  | succ a ih =>
    intro f2 off h1 h2
    match f2, h2 with
    | b + 1, _ =>
      by_cases hoff : off < n
      · simp only [process_loop_go, hoff, if_true]
        by_cases hbad : ev_size buf off = 0 ∨ off + ev_size buf off > n
        · simp [hbad]
        · simp only [hbad, if_false]
          have hsz : 16 ≤ ev_size buf off := by simp [ev_size]
          have := ih b (off + ev_size buf off) (by omega) (by omega)
          rw [this]
      · simp [process_loop_go, hoff]

/-- Every single-byte escape expands to at most 6 output bytes. -/
theorem escape_char_length_le (c : Nat) : (escape_char c).length ≤ 6 := by
  unfold escape_char
  split_ifs <;> simp

/-- Every single-byte escape produces at least one output byte. -/
theorem escape_char_length_pos (c : Nat) : 1 ≤ (escape_char c).length := by
  unfold escape_char
  split_ifs <;> simp

/-- A successful escape loop writes exactly the concatenation of the
per-byte escapes of the source. -/
theorem json_escape_loop_eq :
    ∀ (src : List Nat) (di cap : Nat) (out : List Nat),
      json_escape_loop src di cap = some out → out = src.flatMap escape_char := by
  intro src
  induction src with
  | nil =>
    intro di cap out h
    simp only [json_escape_loop] at h
    split at h <;> simp_all
  | cons c rest ih =>
    intro di cap out h
    simp only [json_escape_loop] at h
    split at h
    · exact absurd h (by simp)
    · rcases Option.map_eq_some'.mp h with ⟨out', hout', rfl⟩
      simp [List.flatMap_cons, ih _ _ _ hout']

/-- A successful json_escape writes exactly the concatenation of the
per-byte escapes of the source. -/
theorem json_escape_eq (src : List Nat) (cap : Nat) (out : List Nat)
    (h : json_escape src cap = some out) : out = src.flatMap escape_char := by
  unfold json_escape at h
  split at h
  · exact absurd h (by simp)
  · exact json_escape_loop_eq src 0 cap out h

/-- Hexadecimal digit bytes produced by the escape table are valid. -/
theorem is_hex_byte_hex_digit : ∀ d, d < 16 → is_hex_byte (hex_digit d) = true := by
  decide

/-- Decoding a hexadecimal digit byte gives back the digit value. -/
theorem hex_val_hex_digit : ∀ d, d < 16 → hex_val (hex_digit d) = d := by
  decide

/-- Decoding the escape of one byte peels that byte off and continues. -/
theorem json_unescape_escape_char (c : Nat) (rest : List Nat) :
    json_unescape (escape_char c ++ rest) =
      (json_unescape rest).map (fun d => c :: d) := by
  by_cases h34 : c = 34
  · subst h34; rw [json_unescape.eq_def]; simp [escape_char]
  by_cases h92 : c = 92
  · subst h92; rw [json_unescape.eq_def]; simp [escape_char]
  by_cases h8 : c = 8
  · subst h8; rw [json_unescape.eq_def]; simp [escape_char]
  by_cases h12 : c = 12
  · subst h12; rw [json_unescape.eq_def]; simp [escape_char]
  by_cases h10 : c = 10
  · subst h10; rw [json_unescape.eq_def]; simp [escape_char]
  by_cases h13 : c = 13
  · subst h13; rw [json_unescape.eq_def]; simp [escape_char]
  by_cases h9 : c = 9
  · subst h9; rw [json_unescape.eq_def]; simp [escape_char]
  by_cases hc : c < 32
  · have hdiv : c / 16 < 16 := by omega
    have hmod : c % 16 < 16 := Nat.mod_lt _ (by omega)
    have e1 : escape_char c =
        [92, 117, 48, 48, hex_digit (c / 16), hex_digit (c % 16)] := by
      simp [escape_char, h34, h92, h8, h12, h10, h13, h9, hc]
    have h48 : is_hex_byte 48 = true := by decide
    have hv48 : hex_val 48 = 0 := by decide
    rw [e1, List.cons_append, List.cons_append, List.cons_append,
      List.cons_append, List.cons_append, List.cons_append, List.nil_append,
      json_unescape.eq_def]
    simp [is_hex_byte_hex_digit _ hdiv, is_hex_byte_hex_digit _ hmod, h48,
      hv48, hex_val_hex_digit _ hdiv, hex_val_hex_digit _ hmod]
    congr 1
    funext d
    congr 1
    omega
  · have e1 : escape_char c = [c] := by
      simp [escape_char, h34, h92, h8, h12, h10, h13, h9, hc]
    rw [e1, List.cons_append, List.nil_append, json_unescape.eq_def]
    simp [h92, h34, hc]

/-- Decoding the escape of a whole byte sequence peels the sequence off. -/
theorem json_unescape_flatMap (src rest : List Nat) :
    json_unescape (src.flatMap escape_char ++ rest) =
      (json_unescape rest).map (fun d => src ++ d) := by
  induction src with
  | nil => simp [Option.map_id_fun]
  | cons c cs ih =>
    simp only [List.flatMap_cons, List.append_assoc, json_unescape_escape_char,
      ih, Option.map_map]
    rcases json_unescape rest with _ | d <;> simp

/-- A successful escape loop leaves room for the terminating NUL: the
bytes written after position di stay strictly below the capacity. -/
theorem json_escape_loop_some_len :
    ∀ (src : List Nat) (di cap : Nat) (out : List Nat),
      json_escape_loop src di cap = some out → di + out.length < cap := by
  intro src
  induction src with
  | nil =>
    intro di cap out h
    simp only [json_escape_loop] at h
    split at h
    · simp_all
    · simp_all
  | cons c rest ih =>
    intro di cap out h
    simp only [json_escape_loop] at h
    split at h
    · exact absurd h (by simp)
    · rcases Option.map_eq_some'.mp h with ⟨out', hout', rfl⟩
      have := ih _ _ _ hout'
      simp only [List.length_append]
      omega

/-- The escape loop fails exactly when the capacity is at most the bytes
already written plus the escaped length of all but the last input byte
plus the 6-byte worst case checked before that last byte (assuming the
write position is still inside the buffer). -/
theorem json_escape_loop_none_iff :
    ∀ (src : List Nat) (di cap : Nat), di < cap →
      (json_escape_loop src di cap = none ↔
        src ≠ [] ∧ cap ≤ di + (src.dropLast.flatMap escape_char).length + 6) := by
  intro src
  induction src with
  | nil =>
    intro di cap hdi
    simp [json_escape_loop, Nat.not_le_of_lt hdi]
  | cons c rest ih =>
    intro di cap hdi
    simp only [json_escape_loop]
    split
    · rename_i hfull
      simp only [ne_eq, reduceCtorEq, not_false_eq_true, true_and, true_iff]
      cases rest with
      | nil => simpa using hfull
      | cons r rs =>
        have h1 : 1 ≤ (escape_char c).length := escape_char_length_pos c
        simp [List.dropLast_cons₂, List.flatMap_cons]
        omega
    · rename_i hroom
      have hle : (escape_char c).length ≤ 6 := escape_char_length_le c
      have hdi' : di + (escape_char c).length < cap := by omega
      rw [Option.map_eq_none', ih _ _ hdi']
      cases rest with
      | nil =>
        simp [json_escape_loop]
        omega
      | cons r rs =>
        simp [List.dropLast_cons₂, List.flatMap_cons]
        omega

/-- The filtering loop of get_chromium_theme computes the digit/comma
filter of the line up to its first NUL byte, truncated to the room left
in the 12-byte output buffer. -/
theorem theme_filter_loop_eq :
    ∀ (line : List Nat) (j : Nat), j ≤ 11 →
      theme_filter_loop line j =
        ((line.takeWhile (fun c => c != 0)).filter is_digit_comma).take (11 - j) := by
  intro line
  induction line with
  | nil => intro j _; simp [theme_filter_loop]
  | cons c rest ih =>
    intro j hj
    simp only [theme_filter_loop]
    by_cases hz : c = 0
    · subst hz; simp
    · have hz' : (c != 0) = true := by simp [hz]
      by_cases hd : is_digit_comma c = true
      · by_cases hfull : j ≥ 11
        · have hj11 : j = 11 := by omega
          simp [hfull, hd, hz', hj11, hz]
        · have h2 : 11 - j = (11 - (j + 1)) + 1 := by omega
          simp [hfull, hd, hz', hz, h2, ih (j + 1) (by omega)]
      · have hd' : is_digit_comma c = false := by simpa using hd
        simp [hd', hz', hz, List.takeWhile_cons, List.filter_cons, ih j hj]

/-- theme_filter is the truncated digit/comma filter of the line up to
its first NUL byte. -/
theorem theme_filter_eq (line : List Nat) :
    theme_filter line =
      ((line.takeWhile (fun c => c != 0)).filter is_digit_comma).take 11 :=
  theme_filter_loop_eq line 0 (by omega)

/-- Scanning past the escape of one byte continues with the remainder. -/
theorem parse_string_body_escape_char (c : Nat) (rest : List Nat) :
    parse_string_body (escape_char c ++ rest) = parse_string_body rest := by
  by_cases h34 : c = 34
  · subst h34; rw [parse_string_body.eq_def]; simp [escape_char]
  by_cases h92 : c = 92
  · subst h92; rw [parse_string_body.eq_def]; simp [escape_char]
  by_cases h8 : c = 8
  · subst h8; rw [parse_string_body.eq_def]; simp [escape_char]
  by_cases h12 : c = 12
  · subst h12; rw [parse_string_body.eq_def]; simp [escape_char]
  by_cases h10 : c = 10
  · subst h10; rw [parse_string_body.eq_def]; simp [escape_char]
  by_cases h13 : c = 13
  · subst h13; rw [parse_string_body.eq_def]; simp [escape_char]
  by_cases h9 : c = 9
  · subst h9; rw [parse_string_body.eq_def]; simp [escape_char]
  by_cases hc : c < 32
  · have hdiv : c / 16 < 16 := by omega
    have hmod : c % 16 < 16 := Nat.mod_lt _ (by omega)
    have e1 : escape_char c =
        [92, 117, 48, 48, hex_digit (c / 16), hex_digit (c % 16)] := by
      simp [escape_char, h34, h92, h8, h12, h10, h13, h9, hc]
    have h48 : is_hex_byte 48 = true := by decide
    rw [e1, List.cons_append, List.cons_append, List.cons_append,
      List.cons_append, List.cons_append, List.cons_append, List.nil_append,
      parse_string_body.eq_def]
    simp [is_hex_byte_hex_digit _ hdiv, is_hex_byte_hex_digit _ hmod, h48]
  · have e1 : escape_char c = [c] := by
      simp [escape_char, h34, h92, h8, h12, h10, h13, h9, hc]
    rw [e1, List.cons_append, List.nil_append, parse_string_body.eq_def]
    simp [h92, h34, hc]

/-- Scanning past the escape of a whole byte sequence continues with the
remainder. -/
theorem parse_string_body_flatMap (src rest : List Nat) :
    parse_string_body (src.flatMap escape_char ++ rest) =
      parse_string_body rest := by
  induction src with
  | nil => simp
  | cons c cs ih =>
    simp only [List.flatMap_cons, List.append_assoc,
      parse_string_body_escape_char, ih]

/-- Scanning past bytes that need no escaping (printable, not quote, not
backslash) continues with the remainder. -/
theorem parse_string_body_plain (l rest : List Nat)
    (h : ∀ c ∈ l, 32 ≤ c ∧ c ≠ 34 ∧ c ≠ 92) :
    parse_string_body (l ++ rest) = parse_string_body rest := by
  induction l with
  | nil => simp
  | cons c cs ih =>
    rcases h c (by simp) with ⟨hge, h34, h92⟩
    rw [List.cons_append, parse_string_body.eq_def]
    have hlt : ¬ c < 32 := by omega
    simp [h34, h92, hlt]
    exact ih (fun x hx => h x (by simp [hx]))

/-- Scanning past an escaped field of send_msg (either the json_escape
output or the fallback literal) continues with the remainder. -/
theorem parse_string_body_esc_field (s rest : List Nat) :
    parse_string_body (esc_field_of s ++ rest) = parse_string_body rest := by
  unfold esc_field_of
  cases h : json_escape s MSG_MAX with
  | none =>
    simp only [esc_field]
    exact parse_string_body_plain _ _ (by decide)
  | some out =>
    simp only [esc_field]
    rw [json_escape_eq s MSG_MAX out h]
    exact parse_string_body_flatMap s rest

/-- Consuming a literal from the front of itself plus a remainder leaves
the remainder. -/
theorem strip_lit_append (pre rest : List Nat) :
    strip_lit pre (pre ++ rest) = some rest := by
  unfold strip_lit
  rw [if_pos, List.drop_left]
  rw [List.isPrefixOf_iff_prefix]
  exact List.prefix_append pre rest

/-- A literal cannot be consumed from input starting with a different
byte. -/
theorem strip_lit_cons_ne (a b : Nat) (pre l : List Nat) (h : a ≠ b) :
    strip_lit (a :: pre) (b :: l) = none := by
  unfold strip_lit
  rw [if_neg]
  rw [List.isPrefixOf_iff_prefix]
  intro hp
  rcases hp with ⟨t, ht⟩
  simp at ht
  exact h ht.1

/-- takeWhile walks through a block whose bytes all satisfy the test. -/
theorem takeWhile_append_all (p : Nat → Bool) (r t : List Nat)
    (h : ∀ c ∈ r, p c = true) :
    (r ++ t).takeWhile p = r ++ t.takeWhile p := by
  induction r with
  | nil => simp
  | cons c cs ih =>
    rw [List.cons_append, List.takeWhile_cons, if_pos (h c (by simp))]
    rw [List.cons_append, ih (fun x hx => h x (by simp [hx]))]

/-- Every error body send_msg formats satisfies the message-shape
property: rgb is null and error is one valid JSON string. -/
theorem msg_shape_err_body (e sys : List Nat) :
    msg_shape_ok (ascii "\x7b\"rgb\":null,\"error\":\"" ++ esc_field_of e ++
      ascii ": " ++ esc_field_of sys ++ ascii "\"\x7d") = true := by
  have hsplit : ascii "\x7b\"rgb\":null,\"error\":\"" =
      ascii "\x7b\"rgb\":" ++ (ascii "null" ++ (ascii ",\"error\":" ++ [34])) := by
    decide
  rw [hsplit]
  simp only [List.append_assoc]
  rw [msg_shape_ok, strip_lit_append]
  simp only [parse_rgb_val]
  rw [strip_lit_append]
  simp only []
  rw [strip_lit_append]
  simp only [parse_err_val]
  have hnull : ascii "null" = 110 :: ascii "ull" := by decide
  rw [hnull, List.cons_append, strip_lit_cons_ne 110 34 _ _ (by omega)]
  simp only [List.nil_append]
  rw [parse_string_body_esc_field]
  have hcolon : ∀ c ∈ ascii ": ", 32 ≤ c ∧ c ≠ 34 ∧ c ≠ 92 := by decide
  rw [parse_string_body_plain _ _ hcolon, parse_string_body_esc_field]
  have hclose : ascii "\"\x7d" = 34 :: [125] := by decide
  rw [hclose]
  simp [parse_string_body]

/-- A success body send_msg formats satisfies the message-shape property
exactly when the rgb text between the brackets is a comma-separated list
of exactly three valid JSON numbers; the hypothesis restricts the rgb
text to the digit/comma alphabet every reader output lies in. -/
theorem msg_shape_success_body (r : List Nat) (hr : ∀ c ∈ r, is_digit_comma c = true) :
    msg_shape_ok (ascii "\x7b\"rgb\":[" ++ r ++ ascii "],\"error\":null\x7d") =
      (num_list_count r == some 3) := by
  have hne93 : ∀ c ∈ r, (c != 93) = true := by
    intro c hc
    have := hr c hc
    simp only [is_digit_comma] at this
    rcases Bool.or_eq_true_iff.mp this with h1 | h1
    · rcases Bool.and_eq_true_iff.mp h1 with ⟨ha, hb⟩
      simp at ha hb ⊢
      omega
    · simp at h1 ⊢
      omega
  have htw : (r ++ 93 :: ascii ",\"error\":null\x7d").takeWhile
      (fun c => c != 93) = r := by
    rw [takeWhile_append_all _ r _ hne93]
    have ht93 : (93 :: ascii ",\"error\":null\x7d").takeWhile
        (fun c => c != 93) = [] := by decide
    rw [ht93, List.append_nil]
  have hdrop : (r ++ 93 :: ascii ",\"error\":null\x7d").drop r.length =
      93 :: ascii ",\"error\":null\x7d" := List.drop_left r _
  have hnul : strip_lit (ascii "null")
      (91 :: (r ++ 93 :: ascii ",\"error\":null\x7d")) = none := by
    have hnull : ascii "null" = 110 :: ascii "ull" := by decide
    rw [hnull]
    exact strip_lit_cons_ne 110 91 _ _ (by omega)
  have hbody : ascii "\x7b\"rgb\":[" ++ r ++ ascii "],\"error\":null\x7d" =
      ascii "\x7b\"rgb\":" ++ (91 :: (r ++ 93 :: ascii ",\"error\":null\x7d")) := by
    have e1 : ascii "\x7b\"rgb\":[" = ascii "\x7b\"rgb\":" ++ [91] := by decide
    have e2 : ascii "],\"error\":null\x7d" = 93 :: ascii ",\"error\":null\x7d" := by
      decide
    rw [e1, e2]
    simp [List.append_assoc]
  rw [hbody, msg_shape_ok, strip_lit_append]
  simp only [parse_rgb_val, hnul, htw, hdrop]
  cases hnc : num_list_count r with
  | none => simp
  | some k =>
    have hsl : strip_lit (ascii ",\"error\":") (ascii ",\"error\":null\x7d") =
        some (ascii "null\x7d") := by decide
    have hpe : parse_err_val (ascii "null\x7d") = some (false, [125]) := by decide
    simp [hsl, hpe]

/-- Every byte the theme-file reader outputs is a digit or a comma. -/
theorem theme_filter_all (line : List Nat) :
    ∀ c ∈ theme_filter line, is_digit_comma c = true := by
  intro c hc
  rw [theme_filter_eq] at hc
  exact List.of_mem_filter (List.take_subset 11 _ hc)

/-- Reading back the little-endian length prefix recovers the value for
anything below 2 to the 32. -/
theorem decode_le32_le32 (n : Nat) (h : n < 4294967296) :
    decode_le32 (le32 n) = n := by
  simp only [le32, decode_le32, List.getD]
  simp
  omega

/-- Every record the notification walk returns was validated: its
declared size fits inside the n bytes actually read, and its fields are
read from its own offset. -/
theorem process_loop_go_mem (buf : List Nat) (n : Nat) :
    ∀ (fuel off : Nat) (ev : RawEvent), ev ∈ process_loop_go buf n off fuel →
      ev.off + ev_size buf ev.off ≤ n ∧ ev.off < n ∧
        ev.mask = read_u32 buf (ev.off + 4) ∧ ev.len = ev_len buf ev.off ∧
        ev.name = (buf.drop (ev.off + 16)).take (ev_len buf ev.off) := by
  intro fuel
  induction fuel with
  | zero => intro off ev hev; simp [process_loop_go] at hev
  | succ f ih =>
    intro off ev hev
    simp only [process_loop_go] at hev
    split at hev
    · split at hev
      · simp at hev
      · rename_i hoff hok
        rcases List.mem_cons.mp hev with hcur | hrest
        · subst hcur
          exact ⟨show off + ev_size buf off ≤ n by omega,
            show off < n from hoff, rfl, rfl, rfl⟩
        · exact ih _ _ hrest
    · simp at hev

/-- The batch runner either makes only success calls, or makes success
calls followed by exactly one failure call whose errno is the exit
code. -/
theorem run_reads_spec :
    ∀ (k : Nat) (opens : List FopenRes) (theme : List Nat),
      ((run_reads k opens theme).2.2 = none →
        all_success (run_reads k opens theme).1) ∧
      (∀ e, (run_reads k opens theme).2.2 = some e →
        ∃ pre, (run_reads k opens theme).1 =
            pre ++ [Call.failure ctx_read_theme e] ∧ all_success pre) := by
  intro k
  induction k with
  | zero =>
    intro opens theme
    constructor
    · intro _; intro c hc; simp [run_reads] at hc
    · intro e he; simp [run_reads] at he
  | succ k ih =>
    intro opens theme
    simp only [run_reads]
    split
    · constructor
      · intro h; simp at h
      · intro e he
        simp at he
        subst he
        exact ⟨[], by simp, by intro c hc; simp at hc⟩
    · rename_i hz
      constructor
      · intro h
        simp only at h
        intro c hc
        rcases List.mem_cons.mp hc with hcur | hrest
        · exact ⟨_, hcur⟩
        · exact (ih _ _).1 h c hrest
      · intro e he
        simp only at he
        rcases (ih (opens.tail)
            (get_chromium_theme (opens.headD (.ok (.line []))) theme).2).2 e he
          with ⟨pre, hpre, hall⟩
        refine ⟨Call.success (cstr (get_chromium_theme
          (opens.headD (.ok (.line []))) theme).2) :: pre,
          by rw [List.cons_append, hpre], ?_⟩
        intro c hc
        rcases List.mem_cons.mp hc with hcur | hrest
        · exact ⟨_, hcur⟩
        · exact hall c hrest

/-- The steady-state loop either makes only success calls, or makes
success calls followed by exactly one failure call whose errno is the
exit code. -/
theorem run_loop_spec :
    ∀ (ins : List LoopIn) (theme : List Nat),
      ((run_loop ins theme).2 = none → all_success (run_loop ins theme).1) ∧
      (∀ e, (run_loop ins theme).2 = some e →
        ∃ pre ctx, (run_loop ins theme).1 =
            pre ++ [Call.failure ctx e] ∧ all_success pre) := by
  intro ins
  induction ins with
  | nil =>
    intro theme
    constructor
    · intro _ c hc; simp [run_loop] at hc
    · intro e he; simp [run_loop] at he
  | cons i rest ih =>
    intro theme
    cases i with
    | readFail e0 =>
      simp only [run_loop]
      split
      · exact ih theme
      · constructor
        · intro h; simp at h
        · intro e he
          simp at he
          subst he
          exact ⟨[], ctx_read_inotify, by simp, by intro c hc; simp at hc⟩
    | readBatch buf n opens =>
      simp only [run_loop]
      split
      · rename_i e0 hbatch
        constructor
        · intro h; simp at h
        · intro e he
          have he2 : e0 = e := by simpa using he
          subst he2
          rcases (run_reads_spec _ opens theme).2 _ hbatch with ⟨pre, hpre, hall⟩
          exact ⟨pre, ctx_read_theme, by simp [hpre], hall⟩
      · rename_i hbatch
        have hsucc := (run_reads_spec
          (((process_loop buf n 0).filter event_matches).length) opens theme).1
          hbatch
        constructor
        · intro h
          simp only at h
          intro c hc
          rcases List.mem_append.mp hc with hfst | hsnd
          · exact hsucc c hfst
          · exact (ih _).1 h c hsnd
        · intro e he
          simp only at he
          rcases (ih _).2 e he with ⟨pre, ctx, hpre, hall⟩
          refine ⟨(run_reads (((process_loop buf n 0).filter
            event_matches).length) opens theme).1 ++ pre, ctx, ?_, ?_⟩
          · simp [hpre]
          · intro c hc
            rcases List.mem_append.mp hc with hfst | hsnd
            · exact hsucc c hfst
            · exact hall c hsnd

/-! Claim theorems. -/

/-- C1 (counterexample): the claim asserts every emitted body carries an
rgb array of exactly three numbers or null. The reader can produce the
string 1,2 (theme file content 1,2 and newline), and the emitted success
body then has an rgb array of two numbers, so the claimed shape fails. -/
theorem c1_counterexample :
    send_msg_body (some (theme_filter (ascii "1,2\n"))) none [] =
      some (ascii "\x7b\"rgb\":[1,2],\"error\":null\x7d") ∧
    msg_shape_ok (ascii "\x7b\"rgb\":[1,2],\"error\":null\x7d") = false := by
  decide

/-- C1 (amended): every emitted error body satisfies the claimed shape
(rgb null, error a JSON string, exactly one null); an emitted success
body satisfies it exactly when the reader output between the brackets is
a comma-separated list of three valid JSON numbers; and every reader
output is made of digits and commas only. -/
theorem c1_message_shape :
    (∀ e sys body, send_msg_body none (some e) sys = some body →
      msg_shape_ok body = true) ∧
    (∀ r sys body, (∀ c ∈ r, is_digit_comma c = true) →
      send_msg_body (some r) none sys = some body →
      (msg_shape_ok body = true ↔ num_list_count r = some 3)) ∧
    (∀ line, ∀ c ∈ theme_filter line, is_digit_comma c = true) := by
  refine ⟨?_, ?_, theme_filter_all⟩
  · intro e sys body h
    simp only [send_msg_body] at h
    split at h
    · exact absurd h (by simp)
    · rw [← Option.some_inj.mp h]
      simpa [List.append_assoc] using msg_shape_err_body e sys
  · intro r sys body hr h
    simp only [send_msg_body] at h
    split at h
    · exact absurd h (by simp)
    · rw [← Option.some_inj.mp h]
      rw [show ascii "\x7b\"rgb\":[" ++ r ++ ascii "],\"error\":null\x7d" =
        ascii "\x7b\"rgb\":[" ++ r ++ ascii "],\"error\":null\x7d" from rfl,
        msg_shape_success_body r hr]
      simp

/-- C1 (witness): the amended theorem applied to a concrete error
emission. -/
theorem c1_witness :
    msg_shape_ok (ascii "\x7b\"rgb\":null,\"error\":\"boom: No x\"\x7d") = true :=
  c1_message_shape.1 (ascii "boom") (ascii "No x")
    (ascii "\x7b\"rgb\":null,\"error\":\"boom: No x\"\x7d") (by decide)

/-- C2: every frame send_msg emits is the 4-byte little-endian length of
the body followed by exactly the body bytes and nothing else, and reading
the prefix back gives exactly the length of the rest of the frame. -/
theorem c2_framing :
    ∀ rgb err sys frame, send_msg_frame rgb err sys = some frame →
      ∃ body, send_msg_body rgb err sys = some body ∧
        frame = le32 body.length ++ body ∧
        frame.take 4 = le32 body.length ∧ frame.drop 4 = body ∧
        decode_le32 (frame.take 4) = (frame.drop 4).length := by
  intro rgb err sys frame h
  simp only [send_msg_frame] at h
  rcases Option.map_eq_some'.mp h with ⟨body, hbody, rfl⟩
  have hlen : body.length < MSG_MAX := by
    simp only [send_msg_body] at hbody
    split at hbody
    · exact absurd hbody (by simp)
    · rename_i hlt
      rw [← Option.some_inj.mp hbody]
      omega
  have h4 : (le32 body.length).length = 4 := rfl
  have htake : (le32 body.length ++ body).take 4 = le32 body.length := by
    rw [← h4, List.take_left]
  have hdrop : (le32 body.length ++ body).drop 4 = body := by
    rw [← h4, List.drop_left]
  refine ⟨body, hbody, rfl, htake, hdrop, ?_⟩
  rw [htake, hdrop, decode_le32_le32 body.length (by unfold MSG_MAX at hlen; omega)]

/-- C2 (witness): the framing theorem applied to a concrete success
emission. -/
theorem c2_witness :
    ∃ body, send_msg_body (some (ascii "1")) none [] = some body ∧
      ([24, 0, 0, 0] ++ ascii "\x7b\"rgb\":[1],\"error\":null\x7d" : List Nat) =
        le32 body.length ++ body ∧
      ([24, 0, 0, 0] ++ ascii "\x7b\"rgb\":[1],\"error\":null\x7d" : List Nat).take 4 =
        le32 body.length ∧
      ([24, 0, 0, 0] ++ ascii "\x7b\"rgb\":[1],\"error\":null\x7d" : List Nat).drop 4 =
        body ∧
      decode_le32 (([24, 0, 0, 0] ++
          ascii "\x7b\"rgb\":[1],\"error\":null\x7d" : List Nat).take 4) =
        (([24, 0, 0, 0] ++
          ascii "\x7b\"rgb\":[1],\"error\":null\x7d" : List Nat).drop 4).length :=
  c2_framing (some (ascii "1")) none []
    ([24, 0, 0, 0] ++ ascii "\x7b\"rgb\":[1],\"error\":null\x7d") (by decide)

/-- C3 (counterexample): the claim says the output is the digit/comma
subsequence of the whole line. For the line consisting of bytes 49, 0, 50
(digit one, NUL, digit two) the code stops at the embedded NUL and keeps
only the first digit, while the digit/comma subsequence of the line keeps
both digits. -/
theorem c3_counterexample :
    theme_filter [49, 0, 50] = [49] ∧
    ([49, 0, 50].filter is_digit_comma).take 11 = [49, 50] ∧
    theme_filter [49, 0, 50] ≠ ([49, 0, 50].filter is_digit_comma).take 11 := by
  decide

/-- C3 (amended): the reader output is exactly the ASCII digits and
commas of the portion of the line before its first NUL byte, in original
order, truncated after at most 11 output characters; every other byte in
that portion is dropped without producing an error. -/
theorem c3_filter_shape (line : List Nat) :
    theme_filter line =
      ((line.takeWhile (fun c => c != 0)).filter is_digit_comma).take 11 :=
  theme_filter_eq line

/-- C4: the escape table maps quote, backslash, backspace, form feed,
newline, carriage return and tab to their two-character escapes, every
other byte below 32 to the six-character lowercase backslash-u form, and
every other byte to itself; and a successful json_escape emits exactly
the concatenation of these per-byte images, with no validation of
multi-byte sequences. -/
theorem c4_escape_table :
    (∀ c : Nat, escape_char c =
      (if c = 34 then [92, 34] else if c = 92 then [92, 92]
       else if c = 8 then [92, 98] else if c = 12 then [92, 102]
       else if c = 10 then [92, 110] else if c = 13 then [92, 114]
       else if c = 9 then [92, 116]
       else if c < 32 then [92, 117, 48, 48,
         if c / 16 < 10 then 48 + c / 16 else 87 + c / 16,
         if c % 16 < 10 then 48 + c % 16 else 87 + c % 16]
       else [c])) ∧
    (∀ src cap out, json_escape src cap = some out →
      out = src.flatMap escape_char) :=
  ⟨fun _ => rfl, json_escape_eq⟩

/-- C4 (witness): the escape theorem applied to a concrete input holding
a NUL byte, a quote and a plain letter. -/
theorem c4_witness :
    ([92, 117, 48, 48, 48, 48, 92, 34, 97] : List Nat) =
      [0, 34, 97].flatMap escape_char :=
  c4_escape_table.2 [0, 34, 97] 30 [92, 117, 48, 48, 48, 48, 92, 34, 97]
    (by decide)

/-- C5: whenever json_escape succeeds, its output is a valid JSON string
body and decoding the JSON escapes of the output yields back exactly the
original byte sequence. -/
theorem c5_roundtrip :
    ∀ src cap out, json_escape src cap = some out →
      json_unescape out = some src := by
  intro src cap out h
  rw [json_escape_eq src cap out h]
  have h0 : json_unescape [] = some [] := rfl
  simpa [h0] using json_unescape_flatMap src []

/-- C5 (witness): the round-trip theorem applied to a concrete input. -/
theorem c5_witness :
    json_unescape [92, 117, 48, 48, 48, 48, 92, 34, 97] = some [0, 34, 97] :=
  c5_roundtrip [0, 34, 97] 30 [92, 117, 48, 48, 48, 48, 92, 34, 97] (by decide)

/-- C6 (counterexample): the claim predicts failure whenever the
worst-case expansion of the input cannot fit, in particular when input
length times 6 exceeds the capacity by exactly one byte. With the 2-byte
input ab and capacity 11 that product is 12 = 11 + 1, yet json_escape
succeeds, because the code only reserves the worst case for one byte at
a time. -/
theorem c6_counterexample :
    json_escape [97, 98] 11 = some [97, 98] ∧ [97, 98].length * 6 = 11 + 1 := by
  decide

/-- C6 (amended): json_escape fails exactly when the capacity is zero or
when some input byte is reached with fewer than 7 bytes of remaining
capacity (6 for the worst-case expansion of that byte plus the
terminator), equivalently when the capacity is at most the escaped length
of all but the last byte plus 6; and on success the output always fits
strictly below the capacity, so no truncated result is ever produced. -/
theorem c6_capacity :
    ∀ src cap,
      (json_escape src cap = none ↔
        cap = 0 ∨ (src ≠ [] ∧
          cap ≤ (src.dropLast.flatMap escape_char).length + 6)) ∧
      (∀ out, json_escape src cap = some out → out.length < cap) := by
  intro src cap
  constructor
  · by_cases hz : cap = 0
    · simp [json_escape, hz]
    · have hpos : 0 < cap := Nat.pos_of_ne_zero hz
      simp only [json_escape, hz, if_false]
      rw [json_escape_loop_none_iff src 0 cap hpos]
      simp [hz]
  · intro out h
    simp only [json_escape] at h
    split at h
    · exact absurd h (by simp)
    · have := json_escape_loop_some_len src 0 cap out h
      omega

/-- C6 (witness): the characterization applied to a concrete single-byte
input with capacity 5, where 6 exceeds the capacity by one. -/
theorem c6_witness : json_escape [97] 5 = none :=
  (c6_capacity [97] 5).1.mpr (Or.inr ⟨by decide, by decide⟩)

/-- C7 (code bug): fopen failure and fgets stream errors propagate the
nonzero OS errno, but when fgets returns NULL at end of file without a
stream error (empty theme file) errno is not set by fgets; with errno
still 0 the function returns 0, reporting the failed read as success
with the destination buffer never written. -/
theorem c7_eof_swallowed :
    (∀ e dst, get_chromium_theme (.fail e) dst = (e, dst)) ∧
    (∀ e dst, get_chromium_theme (.ok (.err e)) dst = (e, dst)) ∧
    get_chromium_theme (.ok (.eofAt 0)) (List.replicate 12 0) =
      (0, List.replicate 12 0) :=
  ⟨fun _ _ => rfl, fun _ _ => rfl, rfl⟩

/-- C8: a record whose declared size would read past the n bytes actually
read terminates the batch walk at once and is never returned to the loop
body; every record the walk does return was validated, with its declared
size inside the read bytes and its fields taken from its own offset. -/
theorem c8_validation :
    (∀ buf n off, off + ev_size buf off > n → process_loop buf n off = []) ∧
    (∀ buf n off ev, ev ∈ process_loop buf n off →
      ev.off + ev_size buf ev.off ≤ n ∧ ev.off < n ∧
      ev.mask = read_u32 buf (ev.off + 4) ∧ ev.len = ev_len buf ev.off ∧
      ev.name = (buf.drop (ev.off + 16)).take (ev_len buf ev.off)) := by
  constructor
  · intro buf n off h
    show process_loop_go buf n off (n + 1) = []
    rw [process_loop_go]
    split_ifs with h1 h2
    · rfl
    · exact absurd (Or.inr h) h2
    · rfl
  · intro buf n off ev hev
    exact process_loop_go_mem buf n (n + 1) off ev hev

/-- C8 (witness): an empty buffer claiming one readable byte holds no
complete record, so the walk returns nothing. -/
theorem c8_witness : process_loop [] 1 0 = [] :=
  c8_validation.1 [] 1 0 (by decide)

/-- C9: whenever main exits, the send_msg calls it made are success
messages followed by exactly one error message, and the exit status is
exactly the errno value carried by that one error message. -/
theorem c9_fatal_trace :
    ∀ env calls code, main_run env = (calls, some code) →
      ∃ pre ctx, calls = pre ++ [Call.failure ctx code] ∧ all_success pre := by
  intro env calls code h
  simp only [main_run] at h
  split at h
  · injection h with h1 h2
    injection h2 with h2
    subst h1; subst h2
    exact ⟨[], ctx_current_path, rfl, by intro c hc; simp at hc⟩
  · split at h
    · injection h with h1 h2
      injection h2 with h2
      subst h1; subst h2
      exact ⟨[], ctx_inotify_init, rfl, by intro c hc; simp at hc⟩
    · split at h
      · injection h with h1 h2
        injection h2 with h2
        subst h1; subst h2
        exact ⟨[], ctx_add_watch, rfl, by intro c hc; simp at hc⟩
      · split at h
        · injection h with h1 h2
          injection h2 with h2
          subst h1; subst h2
          exact ⟨[], ctx_theme_path, rfl, by intro c hc; simp at hc⟩
        · split at h
          · injection h with h1 h2
            injection h2 with h2
            subst h1; subst h2
            exact ⟨[], ctx_read_theme, rfl, by intro c hc; simp at hc⟩
          · injection h with h1 h2
            rcases (run_loop_spec env.loop_inputs _).2 code h2 with
              ⟨pre, ctx, hpre, hall⟩
            refine ⟨Call.success (cstr (get_chromium_theme env.initial_open
              (List.replicate 12 0)).2) :: pre, ctx, ?_, ?_⟩
            · rw [← h1, hpre, List.cons_append]
            · intro c hc
              rcases List.mem_cons.mp hc with hcur | hrest
              · exact ⟨_, hcur⟩
              · exact hall c hrest

/-- C9 (witness): the trace theorem applied to a run whose initial theme
read fails with errno 2. -/
theorem c9_witness :
    ∃ pre ctx, [Call.failure ctx_read_theme 2] = pre ++ [Call.failure ctx 2] ∧
      all_success pre :=
  c9_fatal_trace ⟨0, none, none, 0, .fail 2, []⟩ [Call.failure ctx_read_theme 2] 2
    (by decide)

/-- C10: whenever get_chromium_theme returns a nonzero error, the
destination buffer is byte-for-byte unchanged: no error path writes to
it. -/
theorem c10_dst_unchanged :
    ∀ (file : FopenRes) (dst : List Nat),
      (get_chromium_theme file dst).1 ≠ 0 →
      (get_chromium_theme file dst).2 = dst := by
  intro file dst h
  cases file with
  | fail e => rfl
  | ok r =>
    cases r with
    | line bs => simp [get_chromium_theme] at h
    | eofAt e => rfl
    | err e => rfl

/-- C10 (witness): the buffer-preservation theorem applied to a failing
open with errno 13. -/
theorem c10_witness : (get_chromium_theme (.fail 13) [7, 7, 7]).2 = [7, 7, 7] :=
  c10_dst_unchanged (.fail 13) [7, 7, 7] (by decide)

end OmarchyHost
